import Mathlib

/-!
Verification development for the doppel-bot Slack application (`src/bot.py`).

The file shallowly embeds the four core components of the program:

* the conversation windower of `handle_app_mentions` (lines 129-144),
* the response splitter `re.split` over speaker prefixes (lines 166-167),
* the per-team identity caches `get_users` / `get_self_id` (lines 27-55),
* the training-job orchestrator `user_pipeline` (lines 215-242).

Python string/dict primitives are embedded as total Lean functions that
mirror CPython semantics (left-to-right non-overlapping scans for
`str.replace` and `re.split` on an alternation of literal prefixes,
insertion-order dictionaries).  The database helpers of `db.py`
(`insert_user`, `update_state`, `delete_user`) are not part of the
sources; they are modelled from the specification and marked as such.
-/

namespace DoppelBot

/-- Python `len(s)` for a string, as the character count. -/
def strLen (s : String) : Nat := s.data.length

/-- Python `"sep".join(fragments)`: fragments interleaved with the
separator, empty string for `[]`. -/
def pyJoin (sep : String) : List String → String
  | [] => ""
  | [s] => s
  | s :: rest => s ++ sep ++ pyJoin sep rest

/-- One left-to-right, non-overlapping replacement pass over a character
list, exactly as CPython's `str.replace` scans: at each position, if the
pattern starts here, emit the replacement and resume after the matched
occurrence, otherwise keep the character.  `fuel` only bounds the
recursion; it is always called with `fuel ≥ length of the list`. -/
def pyReplaceAux (pat rep : List Char) : Nat → List Char → List Char
  | _, [] => []
  | 0, l => l
  | fuel+1, c :: rest =>
    if pat.isPrefixOf (c :: rest) then
      rep ++ pyReplaceAux pat rep fuel (List.drop (pat.length - 1) rest)
    else
      c :: pyReplaceAux pat rep fuel rest

/-- Python `s.replace(pat, rep)` for a non-empty pattern (the guard for
the empty pattern is never exercised by the program: its pattern is the
self-mention token `"<@...>"`, of length at least 3). -/
def pyReplace (s pat rep : String) : String :=
  if pat.data.isEmpty then s else ⟨pyReplaceAux pat.data rep.data s.data.length s.data⟩

/-- The number of occurrences the `str.replace` scan of `pyReplaceAux`
finds and removes: same left-to-right, non-overlapping traversal. -/
def countOcc (pat : List Char) : Nat → List Char → Nat
  | _, [] => 0
  | 0, _ => 0
  | fuel+1, c :: rest =>
    if pat.isPrefixOf (c :: rest) then
      1 + countOcc pat fuel (List.drop (pat.length - 1) rest)
    else countOcc pat fuel rest

/-- Python `s.strip()` (whitespace trimming at both ends).  Modelled from
the spec: the spec's Response Disassembler contract mentions "after
trimming"; `bot.py` itself never strips. -/
def pyStrip (s : String) : String :=
  ⟨((s.data.dropWhile Char.isWhitespace).reverse.dropWhile Char.isWhitespace).reverse⟩

/-- `re.split` over an alternation of literal prefixes, as in
`re.split("|".join(prefixes), res)`: scan left to right; at each position
try the alternatives in order; on a match cut the accumulated fragment,
and resume after the matched occurrence.  `fuel` bounds the recursion and
is always called with `fuel ≥ length of the remaining list`. -/
def pySplitAux (pats : List (List Char)) : Nat → List Char → List Char → List (List Char)
  | _, acc, [] => [acc.reverse]
  | 0, acc, rem => [acc.reverse ++ rem]
  | fuel+1, acc, c :: rest =>
    match pats.find? (fun p => p.isPrefixOf (c :: rest)) with
    | some p => acc.reverse :: pySplitAux pats fuel [] (List.drop (p.length - 1) rest)
    | none => pySplitAux pats fuel (c :: acc) rest

/-- `re.split(exp, s)` where `exp` is the alternation of the literal
strings `pats` (in order), as built on line 166 of `bot.py`. -/
def pySplit (pats : List String) (s : String) : List String :=
  (pySplitAux (pats.map String.data) s.data.length [] s.data).map fun l => ⟨l⟩

/-! ## Conversation windower (`handle_app_mentions`, lines 129-144) -/

/-- A Slack message as the windower consumes it: an optional sender
(`"user" in message`) and its text. -/
structure SMessage where
  user : Option String
  text : String
deriving DecidableEq, Repr

/-- The literal self-mention token `f"<@{self_id}>"`. -/
def selfToken (selfId : String) : String := "<@" ++ selfId ++ ">"

/-- Line 133-136: `f"{message['user']}: {message['text']}"` when a sender
is attributable, else the bare text. -/
def renderRaw (m : SMessage) : String :=
  match m.user with
  | some u => u ++ ": " ++ m.text
  | none => m.text

/-- Lines 133-137: render the message and strip the self-mention token,
`i.replace(f"<@{self_id}>", "")`. -/
def renderMessage (selfId : String) (m : SMessage) : String :=
  pyReplace (renderRaw m) (selfToken selfId) ""

/-- Lines 130-142: the backwards scan.  The input list is already
reversed (newest first); `total` is the accumulated rendered length.  The
budget test happens after appending, so the fragment that overflows is
kept and the scan stops. -/
def collectInputs (selfId : String) (budget : Nat) : List SMessage → Nat → List String
  | [], _ => []
  | m :: rest, total =>
    let i := renderMessage selfId m
    if budget < total + strLen i then [i]
    else i :: collectInputs selfId budget rest (total + strLen i)

/-- The fragments of the window in chronological order: scan
`reversed(messages)` and reverse the collected fragments back
(line 144 `reversed(inputs)`). -/
def windowFragments (selfId : String) (budget : Nat) (messages : List SMessage) : List String :=
  (collectInputs selfId budget messages.reverse 0).reverse

/-- Line 144: `input = "\n".join(reversed(inputs))`. -/
def buildWindow (selfId : String) (budget : Nat) (messages : List SMessage) : String :=
  pyJoin "\n" (windowFragments selfId budget messages)

/-- Line 24: `MAX_INPUT_LENGTH = 512`. -/
def MAX_INPUT_LENGTH : Nat := 512

/-- Total rendered length of a fragment list, the quantity the loop
accumulates in `total`. -/
def sumLen (l : List String) : Nat := (l.map strLen).sum

/-! ## Python dictionaries (insertion ordered) -/

/-- Python `d[k] = v`: overwrite in place if the key exists, else append. -/
def dictInsert {V : Type} (d : List (String × V)) (k : String) (v : V) :
    List (String × V) :=
  if (d.map Prod.fst).contains k then
    d.map fun kv => if kv.1 = k then (k, v) else kv
  else d ++ [(k, v)]

/-- Python `d[k]`, as an option (`KeyError` = `none`). -/
def dictLookup {V : Type} (d : List (String × V)) (k : String) : Option V :=
  (d.find? fun kv => kv.1 = k).map Prod.snd

/-! ## Identity caches (`get_users` lines 27-46, `get_self_id` lines 49-55)

The Slack client is embedded by its call trace: the list of results the
successive `users_list` calls would return (each entry one invocation,
`Except` for a raised Slack error).  The paging loop consumes this trace
until a page reports `has_more = False`. -/

/-- One member record as read on lines 38-39. -/
structure SlackUser where
  id : String
  display_name : String
  real_name : String
  image_512 : String
deriving DecidableEq, Repr

/-- One `users_list` page: `members`, `has_more`, continuation cursor. -/
structure UsersPage where
  members : List SlackUser
  has_more : Bool
  next_cursor : String
deriving DecidableEq, Repr

/-- The per-team identity table: display key to `(id, avatar)` (values of
`stub.app.users_cache[team_id]`). -/
abbrev UsersTable := List (String × (String × String))

/-- Lines 38-39: both the display name and the real name key the same
`(id, image_512)` pair; last writer wins. -/
def addMember (t : UsersTable) (u : SlackUser) : UsersTable :=
  dictInsert (dictInsert t u.display_name (u.id, u.image_512)) u.real_name
    (u.id, u.image_512)

/-- Lines 37-39: the inner `for user in result["members"]` loop. -/
def addMembers (t : UsersTable) (ms : List SlackUser) : UsersTable :=
  ms.foldl addMember t

/-- Lines 34-44: the `while True` paging loop over the client's call
trace.  Returns the accumulated table and the number of `users_list`
invocations, `none` when the loop would need more pages than the trace
provides (a model artifact, never reached in the theorems), and the
raised error when a call fails. -/
def fetchPages : List (Except String UsersPage) → UsersTable →
    Option (Except String (UsersTable × Nat))
  | [], _ => none
  | .error e :: _, _ => some (.error e)
  | .ok page :: rest, t =>
    let t := addMembers t page.members
    if page.has_more then
      match fetchPages rest t with
      | none => none
      | some (.error e) => some (.error e)
      | some (.ok (u, n)) => some (.ok (u, n + 1))
    else some (.ok (t, 1))

/-- The per-team users cache `stub.app.users_cache`. -/
abbrev UsersCache := List (String × UsersTable)

/-- `get_users` (lines 27-46): try the cache; on `KeyError` run the
paging loop and store the result keyed by `team_id`.  Returns the
outcome (table and number of client invocations, or the propagated
error) together with the cache afterwards. -/
def get_users (team_id : String) (pages : List (Except String UsersPage))
    (cache : UsersCache) :
    Option (Except String (UsersTable × Nat) × UsersCache) :=
  match dictLookup cache team_id with
  | some users => some (.ok (users, 0), cache)
  | none =>
    match fetchPages pages [] with
    | none => none
    | some (.error e) => some (.error e, cache)
    | some (.ok (users, n)) => some (.ok (users, n), dictInsert cache team_id users)

/-- The per-team self-id cache `stub.app.self_cache`. -/
abbrev SelfCache := List (String × String)

/-- `get_self_id` (lines 49-55): try the cache; on `KeyError` call
`auth_test` (embedded by its result `selfRes`) and store the id. -/
def get_self_id (team_id : String) (selfRes : Except String String)
    (cache : SelfCache) : Except String String × SelfCache :=
  match dictLookup cache team_id with
  | some i => (.ok i, cache)
  | none =>
    match selfRes with
    | .error e => (.error e, cache)
    | .ok i => (.ok i, dictInsert cache team_id i)

/-! ## Training-job store (modelled from the spec)

`bot.py` imports `insert_user`, `update_state` and `delete_user` from
`db.py`, which is not among the sources; the record shape and the
insert-if-absent contract are modelled from the spec (section 3 "Training
Job" and section 4.4 step 1). -/

/-- Job states.  The spec's `succeeded` is the code's `"success"` string;
`training` is the string passed on line 228. -/
inductive JobState
  | registered
  | collecting
  | training
  | success
deriving DecidableEq, Repr

/-- The state strings as `db.py`'s callers pass them. -/
def JobState.str : JobState → String
  | .registered => "registered"
  | .collecting => "collecting"
  | .training => "training"
  | .success => "success"

/-- Terminal states: only `succeeded` persists (a failed job is deleted,
never stored). -/
def JobState.isTerminal : JobState → Bool
  | .success => true
  | _ => false

/-- The external job store, keyed by `(teamId, userKey)`. -/
abbrev JobStore := List ((String × String) × JobState)

/-- The record for a pair, if any. -/
def storeLookup (store : JobStore) (k : String × String) : Option JobState :=
  (store.find? fun e => e.1 = k).map Prod.snd

/-- Modelled from the spec: `db.insert_user` — atomic insert-if-absent of
a Training Job keyed by `(teamId, userKey)`.  If a non-terminal record
already exists, return its state and the registered user key and leave
the store unchanged; otherwise create a fresh non-terminal record and
return no handle. -/
def insert_user (store : JobStore) (team_id user : String) :
    Option (JobState × String) × JobStore :=
  match storeLookup store (team_id, user) with
  | some st =>
    if st.isTerminal then
      (none, (store.filter fun e => e.1 ≠ (team_id, user)) ++
        [((team_id, user), JobState.registered)])
    else (some (st, user), store)
  | none => (none, store ++ [((team_id, user), JobState.registered)])

/-- Modelled from the spec: `db.update_state` — advance the state of the
record for `(teamId, userKey)`. -/
def update_state (store : JobStore) (team_id user : String) (st : JobState) :
    JobStore :=
  store.map fun e => if e.1 = (team_id, user) then (e.1, st) else e

/-- Modelled from the spec: `db.delete_user` — delete the record for
`(teamId, userKey)` entirely (full rollback, no `failed` marker). -/
def delete_user (store : JobStore) (team_id user : String) : JobStore :=
  store.filter fun e => e.1 ≠ (team_id, user)

/-! ## Training orchestrator (`user_pipeline`, lines 215-242) -/

/-- Observable events of one `user_pipeline` run: `respond` calls,
collaborator invocations (`scrape.call`, `finetune.call`) and job-store
operations. -/
inductive PEvent
  | respond (text : String)
  | scrapeCall
  | finetuneCall
  | dbInsert
  | dbUpdate (st : JobState)
  | dbDelete
deriving DecidableEq, Repr

/-- The `respond` texts of a trace, in order. -/
def respondsOf (ev : List PEvent) : List String :=
  ev.filterMap fun x =>
    match x with
    | .respond s => some s
    | _ => none

/-- The failure message of line 239. -/
def failMsg (user e : String) : String :=
  "Failed to train " ++ user ++ " (" ++ e ++ "). Try again in a bit!"

/-- Lines 223-237 plus the `except` clause: the body after the
registration check.  `scrapeRes` / `finetuneRes` embed the external
collaborators by their outcomes; `tStr` is the formatted wall-clock
duration `f"{time.time() - t0:.2f}"`. -/
def pipelineBody (multi : Bool) (user : String) (team_id : String)
    (scrapeRes : Except String Nat) (finetuneRes : Except String Unit)
    (tStr : String) (store : JobStore) (ev0 : List PEvent) :
    List PEvent × JobStore × Except String Unit :=
  let ev := ev0 ++ [.respond ("Began scraping " ++ user ++ "."), .scrapeCall]
  match scrapeRes with
  | .error e =>
    let ev := ev ++ [.respond (failMsg user e)]
    if multi then (ev ++ [.dbDelete], delete_user store team_id user, .error e)
    else (ev, store, .error e)
  | .ok samples =>
    let ev := ev ++ [.respond ("Finished scraping " ++ user ++ " (found " ++
      toString samples ++ " samples), starting training.")]
    let evst := if multi then
        (ev ++ [.dbUpdate .training], update_state store team_id user .training)
      else (ev, store)
    let ev := evst.1 ++ [.finetuneCall]
    let store := evst.2
    match finetuneRes with
    | .error e =>
      let ev := ev ++ [.respond (failMsg user e)]
      if multi then (ev ++ [.dbDelete], delete_user store team_id user, .error e)
      else (ev, store, .error e)
    | .ok _ =>
      let ev := ev ++ [.respond ("Finished training " ++ user ++ " after " ++
        tStr ++ " seconds.")]
      if multi then
        (ev ++ [.dbUpdate .success], update_state store team_id user .success, .ok ())
      else (ev, store, .ok ())

/-- `user_pipeline` (lines 215-242).  `multi` is the
`MULTI_WORKSPACE_SLACK_APP` flag.  Returns the event trace, the job store
afterwards, and the outcome (`.error` when the exception is re-raised on
line 242). -/
def user_pipeline (multi : Bool) (team_id user : String)
    (scrapeRes : Except String Nat) (finetuneRes : Except String Unit)
    (tStr : String) (store : JobStore) :
    List PEvent × JobStore × Except String Unit :=
  if multi then
    match insert_user store team_id user with
    | (some (st, handle), store1) =>
      ([.dbInsert, .respond ("Team " ++ team_id ++ " already has " ++ handle ++
        " registered (state=" ++ st.str ++ ").")], store1, .ok ())
    | (none, store1) =>
      pipelineBody multi user team_id scrapeRes finetuneRes tStr store1 [.dbInsert]
  else
    pipelineBody multi user team_id scrapeRes finetuneRes tStr store []

/-! ## Mention handler tail (`handle_app_mentions`, lines 146-179) -/

/-- Observable events of the mention handler after the window is built:
the `say` call on line 150, the inference call (lines 154-164), the
response split (lines 166-167) and each `chat_postMessage` (lines
171-179). -/
inductive MEvent
  | sayMsg (text : String)
  | inferCall (prompt : String)
  | splitRun
  | postMessage (text : String)
deriving DecidableEq, Repr

/-- Lines 146-179: `trainedUser` is the result of
`get_user_for_team_id(team_id, users.keys())` (defined in `common.py`,
outside the sources — its result is taken as an input); `gen` embeds
`OpenLlamaModel.generate`.  The split prefixes are `f"{u}: "` for each
`(u, _) = users.values()` entry; empty fragments are not posted. -/
def mentionTail (users : UsersTable) (trainedUser : Option String)
    (gen : String → String) (input : String) : List MEvent :=
  match trainedUser with
  | none => [.sayMsg "No users trained yet. Run /doppel <user> first."]
  | some _ =>
    let res := gen input
    let exp := users.map fun kv => kv.2.1 ++ ": "
    let frags := pySplit exp res
    .inferCall input :: .splitRun ::
      (frags.filter fun m => m ≠ "").map .postMessage

/-! ## Helper lemmas: the splitter on prefix-free text -/

theorem pySplitAux_no_match (pats : List (List Char)) :
    ∀ (rem : List Char) (acc : List Char) (fuel : Nat),
      rem.length ≤ fuel → (∀ p ∈ pats, ¬ p <:+: rem) →
      pySplitAux pats fuel acc rem = [acc.reverse ++ rem] := by
  intro rem
  induction rem with
  | nil =>
    intro acc fuel _ _
    cases fuel <;> simp [pySplitAux]
  | cons c rest ih =>
    intro acc fuel hfuel hinf
    cases fuel with
    | zero => simp at hfuel
    | succ f =>
      have hfind : pats.find? (fun p => p.isPrefixOf (c :: rest)) = none := by
        rw [List.find?_eq_none]
        intro p hp
        intro hpre
        exact absurd ((List.isPrefixOf_iff_prefix.mp hpre).isInfix) (hinf p hp)
      have hrest : ∀ p ∈ pats, ¬ p <:+: rest := by
        intro p hp h
        exact hinf p hp (List.infix_cons h)
      simp only [pySplitAux, hfind]
      rw [ih (c :: acc) f (by simpa using hfuel) hrest]
      simp

/-! ## Helper lemmas: the conversation windower -/

theorem collectInputs_ne_nil (selfId : String) (b : Nat) :
    ∀ (l : List SMessage) (t : Nat), l ≠ [] → collectInputs selfId b l t ≠ [] := by
  intro l t hl
  cases l with
  | nil => exact absurd rfl hl
  | cons m rest =>
    simp only [collectInputs]
    split <;> simp

theorem collectInputs_isPrefix (selfId : String) (b : Nat) :
    ∀ (l : List SMessage) (t : Nat),
      collectInputs selfId b l t <+: l.map (renderMessage selfId) := by
  intro l
  induction l with
  | nil => intro t; simp [collectInputs]
  | cons m rest ih =>
    intro t
    simp only [collectInputs, List.map_cons]
    split
    · exact ⟨rest.map (renderMessage selfId), rfl⟩
    · exact (List.cons_prefix_cons).mpr ⟨rfl, ih _⟩

theorem collectInputs_budget (selfId : String) (b : Nat) :
    ∀ (l : List SMessage) (t : Nat), t ≤ b →
      collectInputs selfId b l t = [] ∨
      ∃ x, (collectInputs selfId b l t).getLast? = some x ∧
        t + sumLen (collectInputs selfId b l t) ≤ b + strLen x := by
  intro l
  induction l with
  | nil => intro t _; exact Or.inl rfl
  | cons m rest ih =>
    intro t ht
    right
    simp only [collectInputs]
    split
    · exact ⟨renderMessage selfId m, by simp [sumLen], by simp [sumLen]; omega⟩
    · rename_i hle
      push_neg at hle
      rcases ih (t + strLen (renderMessage selfId m)) hle with hnil | ⟨x, hx, hsum⟩
      · refine ⟨renderMessage selfId m, ?_, ?_⟩
        · simp [hnil]
        · simp [hnil, sumLen]; omega
      · have hne : collectInputs selfId b rest (t + strLen (renderMessage selfId m)) ≠ [] := by
          intro hcon; rw [hcon] at hx; simp at hx
        refine ⟨x, ?_, ?_⟩
        · rw [List.getLast?_cons, hx]
          simp
        · simp only [sumLen, List.map_cons, List.sum_cons] at hsum ⊢
          omega

theorem collectInputs_all_or_exceed (selfId : String) (b : Nat) :
    ∀ (l : List SMessage) (t : Nat),
      collectInputs selfId b l t = l.map (renderMessage selfId) ∨
      b < t + sumLen (collectInputs selfId b l t) := by
  intro l
  induction l with
  | nil => intro t; exact Or.inl rfl
  | cons m rest ih =>
    intro t
    simp only [collectInputs]
    split
    · right
      rename_i hlt
      simp only [sumLen, List.map_cons, List.sum_cons, List.map_nil, List.sum_nil]
      omega
    · rcases ih (t + strLen (renderMessage selfId m)) with hall | hlt
      · left; rw [hall, List.map_cons]
      · right
        simp only [sumLen, List.map_cons, List.sum_cons] at hlt ⊢
        omega

theorem sumLen_reverse (l : List String) : sumLen l.reverse = sumLen l := by
  simp [sumLen, List.sum_reverse]

/-- C3 (amended): for every non-empty chronologically ordered message list
and budget B, the window contains at least one fragment, its fragments
appear in chronological order (they form a suffix of the rendered message
list), the accumulated rendered length exceeds B by at most the length of
the single oldest included fragment, and the scan stops only after the
accumulated length exceeds B (either every message is included, or the
total exceeds B).  (The claim's "non-empty string" is amended to "at
least one fragment": the single included fragment can itself be the empty
string, see the counterexample.) -/
theorem claim_C3_window_budget (selfId : String) (B : Nat) (msgs : List SMessage)
    (h : msgs ≠ []) :
    windowFragments selfId B msgs ≠ [] ∧
    windowFragments selfId B msgs <:+ msgs.map (renderMessage selfId) ∧
    (∃ x, (windowFragments selfId B msgs).head? = some x ∧
      sumLen (windowFragments selfId B msgs) ≤ B + strLen x) ∧
    (windowFragments selfId B msgs = msgs.map (renderMessage selfId) ∨
      B < sumLen (windowFragments selfId B msgs)) := by
  have hrev : msgs.reverse ≠ [] := by simpa using h
  have hne : collectInputs selfId B msgs.reverse 0 ≠ [] :=
    collectInputs_ne_nil selfId B msgs.reverse 0 hrev
  refine ⟨?_, ?_, ?_, ?_⟩
  · simpa [windowFragments] using hne
  · have hpre : collectInputs selfId B msgs.reverse 0 <+:
        (msgs.map (renderMessage selfId)).reverse := by
      have := collectInputs_isPrefix selfId B msgs.reverse 0
      rwa [List.map_reverse] at this
    have := @List.reverse_prefix String
      ((collectInputs selfId B msgs.reverse 0).reverse) (msgs.map (renderMessage selfId))
    rw [List.reverse_reverse] at this
    exact this.mp hpre
  · rcases collectInputs_budget selfId B msgs.reverse 0 (Nat.zero_le B) with hnil | ⟨x, hx, hsum⟩
    · exact absurd hnil hne
    · refine ⟨x, ?_, ?_⟩
      · rw [windowFragments, List.head?_reverse]
        exact hx
      · rw [windowFragments, sumLen_reverse]
        omega
  · rcases collectInputs_all_or_exceed selfId B msgs.reverse 0 with hall | hlt
    · left
      rw [windowFragments, hall, List.map_reverse, List.reverse_reverse]
    · right
      rw [windowFragments, sumLen_reverse]
      omega

theorem claim_C3_witness :
    ([(⟨some "U1", "hi"⟩ : SMessage)] : List SMessage) ≠ [] ∧
    windowFragments "U0" 5 [(⟨some "U1", "hi"⟩ : SMessage)] ≠ [] :=
  ⟨by decide, (claim_C3_window_budget "U0" 5 [⟨some "U1", "hi"⟩] (by decide)).1⟩

/-- C3 counterexample: a non-empty message list whose single message
renders to the empty fragment makes the window the EMPTY string, so the
claim's "the conversation window is a non-empty string" is false as
stated (the loop did include one message). -/
theorem claim_C3_counterexample :
    ([(⟨none, ""⟩ : SMessage)] : List SMessage) ≠ [] ∧
    buildWindow "U" 512 [(⟨none, ""⟩ : SMessage)] = "" := by
  constructor
  · decide
  · rfl

/-- C5 (amended): for every generated text in which none of the known
speaker prefixes occurs anywhere, the response splitter returns exactly
one fragment, and that fragment equals the whole input UNCHANGED (the
code applies no trimming; the claim's "after trimming" is dropped, see
the counterexample). -/
theorem claim_C5_no_match_passthrough (pats : List String) (s : String)
    (h : ∀ p ∈ pats, ¬ p.data <:+: s.data) : pySplit pats s = [s] := by
  unfold pySplit
  rw [pySplitAux_no_match (pats.map String.data) s.data [] s.data.length le_rfl]
  · simp
  · intro p hp
    rcases List.mem_map.mp hp with ⟨q, hq, rfl⟩
    exact h q hq

theorem claim_C5_witness :
    (∀ p ∈ (["alice: ", "bob: "] : List String), ¬ p.data <:+: "hello world".data) ∧
    pySplit ["alice: ", "bob: "] "hello world" = ["hello world"] :=
  ⟨by decide, claim_C5_no_match_passthrough ["alice: ", "bob: "] "hello world" (by decide)⟩

/-- C5 counterexample: the input `" hi "` contains no known prefix, and the
splitter returns it whole and untrimmed — not equal to the trimmed input,
so the claim's "equals the whole input after trimming" is false as
stated. -/
theorem claim_C5_counterexample :
    ¬ ("alice: ".data <:+: " hi ".data) ∧
    pySplit ["alice: "] " hi " = [" hi "] ∧
    pySplit ["alice: "] " hi " ≠ [pyStrip " hi "] := by decide

/-! ## Helper lemmas: the self-mention stripper -/

theorem pyReplaceAux_length (pat : List Char) (hp : pat ≠ []) :
    ∀ (fuel : Nat) (rem : List Char), rem.length ≤ fuel →
      (pyReplaceAux pat [] fuel rem).length +
        countOcc pat fuel rem * pat.length = rem.length := by
  intro fuel
  induction fuel with
  | zero =>
    intro rem h
    rw [List.length_eq_zero.mp (Nat.le_zero.mp h)]
    simp [pyReplaceAux, countOcc]
  | succ f ih =>
    intro rem h
    cases rem with
    | nil => simp [pyReplaceAux, countOcc]
    | cons c rest =>
      have hrest : rest.length ≤ f := by simpa using h
      by_cases hpre : pat.isPrefixOf (c :: rest)
      · have hlen : pat.length ≤ rest.length + 1 := by
          have := (List.isPrefixOf_iff_prefix.mp hpre).length_le
          simpa using this
        have hplen : 1 ≤ pat.length := by
          cases pat with
          | nil => exact absurd rfl hp
          | cons _ _ => simp
        have hdrop : (List.drop (pat.length - 1) rest).length ≤ f := by
          rw [List.length_drop]
          omega
        have hrec := ih (List.drop (pat.length - 1) rest) hdrop
        rw [List.length_drop] at hrec
        simp only [pyReplaceAux, countOcc, hpre, if_true, List.nil_append,
          Nat.add_mul, Nat.one_mul, List.length_cons]
        generalize hA : (pyReplaceAux pat [] f (List.drop (pat.length - 1) rest)).length = A at hrec ⊢
        generalize hB : countOcc pat f (List.drop (pat.length - 1) rest) * pat.length = Bq at hrec ⊢
        omega
      · have hrec := ih rest hrest
        simp only [pyReplaceAux, countOcc, hpre, if_false, List.length_cons,
          Bool.false_eq_true, List.length_cons]
        generalize hA : (pyReplaceAux pat [] f rest).length = A at hrec ⊢
        generalize hB : countOcc pat f rest * pat.length = Bq at hrec ⊢
        omega

theorem countOcc_pos (pat : List Char) (hp : pat ≠ []) :
    ∀ (fuel : Nat) (rem : List Char), rem.length ≤ fuel → pat <:+: rem →
      1 ≤ countOcc pat fuel rem := by
  intro fuel
  induction fuel with
  | zero =>
    intro rem h hinf
    rw [List.length_eq_zero.mp (Nat.le_zero.mp h)] at hinf
    exact absurd (List.infix_nil.mp hinf) hp
  | succ f ih =>
    intro rem h hinf
    cases rem with
    | nil => exact absurd (List.infix_nil.mp hinf) hp
    | cons c rest =>
      by_cases hpre : pat.isPrefixOf (c :: rest)
      · simp [countOcc, hpre]
      · have : pat <:+: rest := by
          rcases List.infix_cons_iff.mp hinf with h1 | h2
          · exact absurd (List.isPrefixOf_iff_prefix.mpr h1) hpre
          · exact h2
        have := ih rest (by simpa using h) this
        simpa [countOcc, hpre] using this

theorem prefix_of_append_of_le (pat a rest : List Char)
    (h : pat <+: a ++ rest) (hlen : pat.length ≤ a.length) : pat <+: a := by
  have heq : (a ++ rest).take pat.length = a.take pat.length := by
    rw [List.take_append_eq_append_take, Nat.sub_eq_zero_of_le hlen,
      List.take_zero, List.append_nil]
  rw [List.prefix_iff_eq_take] at h ⊢
  exact h.trans heq

theorem infix_of_append_cons (pat : List Char) (hn : ('\n' : Char) ∉ pat) :
    ∀ (a b : List Char), pat <:+: a ++ '\n' :: b → pat <:+: a ∨ pat <:+: b := by
  intro a
  induction a with
  | nil =>
    intro b h
    simp only [List.nil_append] at h
    rcases List.infix_cons_iff.mp h with hpre | hinf
    · cases pat with
      | nil => exact Or.inl (List.nil_infix)
      | cons p ps =>
        rcases List.cons_prefix_cons.mp hpre with ⟨rfl, _⟩
        exact absurd (List.mem_cons_self _ _) hn
    · exact Or.inr hinf
  | cons x a' ih =>
    intro b h
    rcases List.infix_cons_iff.mp h with hpre | hinf
    · left
      have hpre' : pat <+: (x :: a') ++ '\n' :: b := by simpa using hpre
      have hlen : pat.length ≤ (x :: a').length := by
        by_contra hgt
        push_neg at hgt
        have heq : pat = ((x :: a') ++ '\n' :: b).take pat.length :=
          List.prefix_iff_eq_take.mp hpre'
        have hmem : ('\n' : Char) ∈ pat := by
          rw [heq, List.take_append_eq_append_take]
          refine List.mem_append.mpr (Or.inr ?_)
          cases hk : pat.length - (x :: a').length with
          | zero => omega
          | succ k => simp
        exact hn hmem
      exact (prefix_of_append_of_le pat (x :: a') ('\n' :: b) hpre' hlen).isInfix
    · rcases ih b hinf with h1 | h2
      · exact Or.inl (List.infix_cons h1)
      · exact Or.inr h2

theorem not_infix_pyJoin (pat : List Char) (hp : pat ≠ []) (hn : ('\n' : Char) ∉ pat) :
    ∀ (frags : List String), (∀ f ∈ frags, ¬ pat <:+: f.data) →
      ¬ pat <:+: (pyJoin "\n" frags).data := by
  intro frags
  induction frags with
  | nil =>
    intro _ h
    exact hp (List.infix_nil.mp h)
  | cons f rest ih =>
    intro hall
    cases rest with
    | nil => simpa [pyJoin] using hall f (by simp)
    | cons g rest' =>
      intro h
      have hdata : (pyJoin "\n" (f :: g :: rest')).data
          = f.data ++ '\n' :: (pyJoin "\n" (g :: rest')).data := by
        show (f ++ "\n" ++ pyJoin "\n" (g :: rest')).data = _
        simp [String.data_append]
      rw [hdata] at h
      rcases infix_of_append_cons pat hn f.data _ h with h1 | h2
      · exact hall f (by simp) h1
      · exact ih (fun x hx => hall x (by simp [hx])) h2

theorem selfToken_data (selfId : String) :
    (selfToken selfId).data = '<' :: '@' :: (selfId.data ++ ['>']) := by
  show (("<@" ++ selfId) ++ ">").data = _
  simp [String.data_append]

theorem renderMessage_eq_aux (selfId : String) (m : SMessage) :
    renderMessage selfId m =
      ⟨pyReplaceAux (selfToken selfId).data [] (renderRaw m).data.length
        (renderRaw m).data⟩ := by
  have hne : (selfToken selfId).data.isEmpty = false := by
    rw [selfToken_data]; rfl
  simp [renderMessage, pyReplace, hne]

/-- C8 (amended): the renderer removes every occurrence of the
self-mention token that the left-to-right `str.replace` scan finds in the
rendered text (the removed length accounts exactly for the occurrence
count, and at least one occurrence is found whenever the token occurs in
the rendered text); whenever the per-message removal leaves every
fragment token-free — deletion can in edge cases splice a NEW occurrence
together, see the counterexample — the token is also absent from the
final joined window output. -/
theorem claim_C8_self_mention_stripped (selfId : String) (B : Nat)
    (msgs : List SMessage) (hn : ('\n' : Char) ∉ (selfToken selfId).data) :
    (∀ m : SMessage,
      strLen (renderMessage selfId m) +
        countOcc (selfToken selfId).data (renderRaw m).data.length (renderRaw m).data *
          (selfToken selfId).data.length = (renderRaw m).data.length ∧
      ((selfToken selfId).data <:+: (renderRaw m).data →
        1 ≤ countOcc (selfToken selfId).data (renderRaw m).data.length
          (renderRaw m).data)) ∧
    ((∀ m ∈ msgs, ¬ (selfToken selfId).data <:+: (renderMessage selfId m).data) →
      ¬ (selfToken selfId).data <:+: (buildWindow selfId B msgs).data) := by
  have hp : (selfToken selfId).data ≠ [] := by
    rw [selfToken_data]; simp
  constructor
  · intro m
    constructor
    · rw [renderMessage_eq_aux, strLen]
      exact pyReplaceAux_length (selfToken selfId).data hp (renderRaw m).data.length
        (renderRaw m).data le_rfl
    · intro hinf
      exact countOcc_pos (selfToken selfId).data hp (renderRaw m).data.length
        (renderRaw m).data le_rfl hinf
  · intro hfree
    apply not_infix_pyJoin (selfToken selfId).data hp hn
    intro f hf
    have hmem : f ∈ msgs.map (renderMessage selfId) := by
      have h1 : f ∈ collectInputs selfId B msgs.reverse 0 := by
        simpa [windowFragments] using hf
      have h2 := (collectInputs_isPrefix selfId B msgs.reverse 0).subset h1
      rw [List.map_reverse] at h2
      exact List.mem_reverse.mp h2
    rcases List.mem_map.mp hmem with ⟨m, hm, rfl⟩
    exact hfree m hm

theorem claim_C8_witness :
    (('\n' : Char) ∉ (selfToken "U").data) ∧
    ¬ (selfToken "U").data <:+:
      (buildWindow "U" 512 [(⟨none, "hello <@U> there"⟩ : SMessage)]).data :=
  ⟨by decide,
    (claim_C8_self_mention_stripped "U" 512 [⟨none, "hello <@U> there"⟩]
      (by decide)).2 (by decide)⟩

/-- C8 counterexample: the message text `"<@<@U>U>"` contains the token
`"<@U>"`; removing it splices a new occurrence together, so the token is
present in the final window output — the claim's "the token is absent
from the final window output" is false as stated. -/
theorem claim_C8_counterexample :
    (selfToken "U").data <:+: (renderRaw (⟨none, "<@<@U>U>"⟩ : SMessage)).data ∧
    (selfToken "U").data <:+:
      (buildWindow "U" 512 [(⟨none, "<@<@U>U>"⟩ : SMessage)]).data := by
  decide

/-! ## Helper lemmas: the identity caches -/

theorem find?_map_update {V : Type} (k : String) (v : V) :
    ∀ d : List (String × V),
      ((d.map fun kv => if kv.1 = k then (k, v) else kv).find?
          fun kv => kv.1 = k) =
        if (d.map Prod.fst).contains k then some (k, v) else none := by
  intro d
  induction d with
  | nil => simp
  | cons a d' ih =>
    by_cases ha : a.1 = k
    · simp [List.find?_cons, ha]
    · have ha' : (k == a.1) = false := by
        simp [Ne.symm ha]
      have hcc : (a.1 :: List.map Prod.fst d').contains k =
          (List.map Prod.fst d').contains k := by
        rw [List.contains_cons, ha', Bool.false_or]
      simp only [List.map_cons, hcc]
      simp [List.find?_cons, ha, ih]

theorem find?_append_self {V : Type} (k : String) (v : V) (d : List (String × V))
    (h : (d.find? fun kv => kv.1 = k) = none) :
    ((d ++ [(k, v)]).find? fun kv => kv.1 = k) = some (k, v) := by
  rw [List.find?_append, h]
  simp

theorem dictLookup_insert {V : Type} (d : List (String × V)) (k : String) (v : V) :
    dictLookup (dictInsert d k v) k = some v := by
  unfold dictLookup dictInsert
  by_cases h : (d.map Prod.fst).contains k
  · rw [if_pos h, find?_map_update, if_pos h]
    rfl
  · rw [if_neg h]
    have hnone : (d.find? fun kv => kv.1 = k) = none := by
      rw [List.find?_eq_none]
      intro x hx hcon
      exact absurd (List.mem_map.mpr ⟨x, hx, of_decide_eq_true hcon⟩)
        (by simpa using h)
    rw [find?_append_self k v d hnone]
    rfl

theorem fetchPages_spec :
    ∀ (pre : List UsersPage) (last : UsersPage)
      (rest : List (Except String UsersPage)) (t : UsersTable),
      (∀ pg ∈ pre, pg.has_more = true) → last.has_more = false →
      fetchPages (pre.map Except.ok ++ Except.ok last :: rest) t =
        some (Except.ok
          ((pre ++ [last]).foldl (fun u pg => addMembers u pg.members) t,
            pre.length + 1)) := by
  intro pre
  induction pre with
  | nil =>
    intro last rest t _ hlast
    simp [fetchPages, hlast]
  | cons pg pre' ih =>
    intro last rest t hpre hlast
    have hpg : pg.has_more = true := hpre pg (by simp)
    simp only [List.map_cons, List.cons_append, fetchPages, hpg, if_true,
      List.append_eq]
    rw [ih last rest (addMembers t pg.members) (fun q hq => hpre q (by simp [hq])) hlast]
    simp

theorem fetchPages_error :
    ∀ (pre : List UsersPage) (e : String) (rest : List (Except String UsersPage))
      (t : UsersTable), (∀ pg ∈ pre, pg.has_more = true) →
      fetchPages (pre.map Except.ok ++ Except.error e :: rest) t =
        some (Except.error e) := by
  intro pre
  induction pre with
  | nil => intro e rest t _; simp [fetchPages]
  | cons pg pre' ih =>
    intro e rest t hpre
    have hpg : pg.has_more = true := hpre pg (by simp)
    simp only [List.map_cons, List.cons_append, fetchPages, hpg, if_true,
      List.append_eq]
    rw [ih e rest (addMembers t pg.members) (fun q hq => hpre q (by simp [hq]))]

/-- C6: for a team with a non-empty membership list and a cold cache, the
first `get_users` call pages through the client (one invocation per page,
stopping at the first page with `has_more = False`), stores the full
table keyed by `teamId`, and every subsequent call returns the cached
table with ZERO client invocations, whatever the client would answer. -/
theorem claim_C6_cache_idempotent (tid : String) (pre : List UsersPage)
    (last : UsersPage) (rest : List (Except String UsersPage)) (cache : UsersCache)
    (hc : dictLookup cache tid = none)
    (hpre : ∀ pg ∈ pre, pg.has_more = true) (hlast : last.has_more = false)
    (_hne : ∃ pg ∈ pre ++ [last], pg.members ≠ []) :
    get_users tid (pre.map Except.ok ++ Except.ok last :: rest) cache =
      some (Except.ok
        ((pre ++ [last]).foldl (fun u pg => addMembers u pg.members) [],
          pre.length + 1),
        dictInsert cache tid
          ((pre ++ [last]).foldl (fun u pg => addMembers u pg.members) [])) ∧
    ∀ pages₂ : List (Except String UsersPage),
      get_users tid pages₂
        (dictInsert cache tid
          ((pre ++ [last]).foldl (fun u pg => addMembers u pg.members) [])) =
      some (Except.ok
        ((pre ++ [last]).foldl (fun u pg => addMembers u pg.members) [], 0),
        dictInsert cache tid
          ((pre ++ [last]).foldl (fun u pg => addMembers u pg.members) [])) := by
  constructor
  · unfold get_users
    rw [hc, fetchPages_spec pre last rest [] hpre hlast]
  · intro pages₂
    unfold get_users
    rw [dictLookup_insert]

theorem claim_C6_witness :
    get_users "T1" [Except.ok ⟨[⟨"U1", "alice", "Alice", "img"⟩], false, ""⟩] [] =
      some (Except.ok ([("alice", ("U1", "img")), ("Alice", ("U1", "img"))], 1),
        [("T1", [("alice", ("U1", "img")), ("Alice", ("U1", "img"))])]) ∧
    get_users "T1" []
        [("T1", [("alice", ("U1", "img")), ("Alice", ("U1", "img"))])] =
      some (Except.ok ([("alice", ("U1", "img")), ("Alice", ("U1", "img"))], 0),
        [("T1", [("alice", ("U1", "img")), ("Alice", ("U1", "img"))])]) :=
  have h := claim_C6_cache_idempotent "T1" []
    ⟨[⟨"U1", "alice", "Alice", "img"⟩], false, ""⟩ [] []
    (by decide) (by decide) (by decide) (by decide)
  ⟨h.1, h.2 []⟩

/-- C7: a failure of the membership fetch or of the self-id fetch
propagates to the caller and leaves the corresponding cache exactly as it
was (nothing is stored for the team), so a subsequent call for the same
team performs the fetch again (with a successful trace it pages through
the client again, one invocation per page). -/
theorem claim_C7_no_cache_poisoning (tid : String) (pre : List UsersPage)
    (e : String) (rest : List (Except String UsersPage)) (cache : UsersCache)
    (scache : SelfCache) (e2 i : String)
    (hc : dictLookup cache tid = none) (hsc : dictLookup scache tid = none)
    (hpre : ∀ pg ∈ pre, pg.has_more = true) :
    get_users tid (pre.map Except.ok ++ Except.error e :: rest) cache =
      some (Except.error e, cache) ∧
    (∀ (pre₂ : List UsersPage) (last₂ : UsersPage)
        (rest₂ : List (Except String UsersPage)),
      (∀ pg ∈ pre₂, pg.has_more = true) → last₂.has_more = false →
      get_users tid (pre₂.map Except.ok ++ Except.ok last₂ :: rest₂) cache =
        some (Except.ok
          ((pre₂ ++ [last₂]).foldl (fun u pg => addMembers u pg.members) [],
            pre₂.length + 1),
          dictInsert cache tid
            ((pre₂ ++ [last₂]).foldl (fun u pg => addMembers u pg.members) []))) ∧
    get_self_id tid (Except.error e2) scache = (Except.error e2, scache) ∧
    get_self_id tid (Except.ok i) scache = (Except.ok i, dictInsert scache tid i) := by
  refine ⟨?_, ?_, ?_, ?_⟩
  · unfold get_users
    rw [hc, fetchPages_error pre e rest [] hpre]
  · intro pre₂ last₂ rest₂ hpre₂ hlast₂
    unfold get_users
    rw [hc, fetchPages_spec pre₂ last₂ rest₂ [] hpre₂ hlast₂]
  · unfold get_self_id
    rw [hsc]
  · unfold get_self_id
    rw [hsc]

theorem claim_C7_witness :
    get_users "T1" [Except.error "boom"] [] = some (Except.error "boom", []) ∧
    get_self_id "T1" (Except.error "err") [] = (Except.error "err", []) ∧
    get_self_id "T1" (Except.ok "UB") [] = (Except.ok "UB", [("T1", "UB")]) :=
  have h := claim_C7_no_cache_poisoning "T1" [] "boom" [] [] [] "err" "UB"
    (by decide) (by decide) (by decide)
  ⟨h.1, h.2.2.1, h.2.2.2⟩

/-! ## Helper lemmas: the job store and the orchestrator -/

theorem find?_delete_none (s : JobStore) (t u : String) :
    ((delete_user s t u).find? fun e => e.1 = (t, u)) = none := by
  rw [List.find?_eq_none]
  intro x hx
  have hmem := List.of_mem_filter hx
  simp at hmem ⊢
  exact hmem

theorem storeLookup_delete (s : JobStore) (t u : String) :
    storeLookup (delete_user s t u) (t, u) = none := by
  simp [storeLookup, find?_delete_none]

theorem find?_store_none (s : JobStore) (t u : String)
    (h : storeLookup s (t, u) = none) :
    (s.find? fun e => e.1 = (t, u)) = none := by
  cases hfind : s.find? fun e => decide (e.1 = (t, u)) with
  | none => rfl
  | some x =>
    unfold storeLookup at h
    rw [hfind] at h
    simp at h

theorem storeLookup_append_new (s : JobStore) (t u : String) (st : JobState)
    (h : storeLookup s (t, u) = none) :
    storeLookup (s ++ [((t, u), st)]) (t, u) = some st := by
  unfold storeLookup
  rw [List.find?_append, find?_store_none s t u h]
  simp

theorem store_after_insert (store : JobStore) (t u : String)
    (h : storeLookup store (t, u) = none) :
    insert_user store t u = (none, store ++ [((t, u), JobState.registered)]) := by
  simp [insert_user, h]

theorem insert_user_existing (store : JobStore) (t u : String) (st : JobState)
    (h : storeLookup store (t, u) = some st) (hterm : st.isTerminal = false) :
    insert_user store t u = (some (st, u), store) := by
  simp [insert_user, h, hterm]

theorem storeLookup_update_append (store : JobStore) (t u : String)
    (st0 st1 : JobState) (h : storeLookup store (t, u) = none) :
    update_state (store ++ [((t, u), st0)]) t u st1 = store ++ [((t, u), st1)] := by
  unfold update_state
  rw [List.map_append]
  congr 1
  · have hall : ∀ e ∈ store, e.1 ≠ (t, u) := by
      intro e he hcon
      have := find?_store_none store t u h
      rw [List.find?_eq_none] at this
      exact absurd (by simpa using hcon) (this e he)
    calc store.map (fun e => if e.1 = (t, u) then (e.1, st1) else e)
        = store.map id := List.map_congr_left fun e he => by
          simp [hall e he]
      _ = store := List.map_id store
  · simp

theorem scrapeCall_mem_body (m : Bool) (u t : String) (sr : Except String Nat)
    (fr : Except String Unit) (ts : String) (st : JobStore) (ev0 : List PEvent) :
    PEvent.scrapeCall ∈ (pipelineBody m u t sr fr ts st ev0).1 := by
  cases sr <;> cases fr <;> cases m <;> simp [pipelineBody]

theorem scrapeCall_count_body (m : Bool) (u t : String) (sr : Except String Nat)
    (fr : Except String Unit) (ts : String) (st : JobStore) (ev0 : List PEvent) :
    ((pipelineBody m u t sr fr ts st ev0).1).count PEvent.scrapeCall =
      ev0.count PEvent.scrapeCall + 1 := by
  cases sr <;> cases fr <;> cases m <;>
    simp [pipelineBody, List.count_append, List.count_cons]

theorem scrapeCall_mem_pipeline_of_none (tid u : String) (sr : Except String Nat)
    (fr : Except String Unit) (ts : String) (store : JobStore)
    (h : storeLookup store (tid, u) = none) :
    PEvent.scrapeCall ∈ (user_pipeline true tid u sr fr ts store).1 := by
  unfold user_pipeline
  rw [if_pos rfl, store_after_insert store tid u h]
  exact scrapeCall_mem_body true u tid sr fr ts _ _

/-- C1: when a job has been started for `(teamId, userKey)` (registration
went through) and the collection call — or the training call after a
successful collection — raises a failure, the orchestrator re-signals the
failure to its caller, deletes the job record for the pair entirely
(lookup afterwards finds nothing, so any later start is not
short-circuited and invokes collection again), reports a progress message
naming the user and the failure reason, and aborts the remaining steps
(on a collection failure the training collaborator is never invoked). -/
theorem claim_C1_failure_rollback (tid u : String) (sr : Except String Nat)
    (fr : Except String Unit) (tStr : String) (store : JobStore) (e : String)
    (h : storeLookup store (tid, u) = none)
    (hfail : sr = Except.error e ∨ ∃ n, sr = Except.ok n ∧ fr = Except.error e) :
    (user_pipeline true tid u sr fr tStr store).2.2 = Except.error e ∧
    storeLookup (user_pipeline true tid u sr fr tStr store).2.1 (tid, u) = none ∧
    PEvent.respond (failMsg u e) ∈ (user_pipeline true tid u sr fr tStr store).1 ∧
    (sr = Except.error e →
      PEvent.finetuneCall ∉ (user_pipeline true tid u sr fr tStr store).1) ∧
    ∀ (sr₂ : Except String Nat) (fr₂ : Except String Unit) (ts₂ : String),
      PEvent.scrapeCall ∈ (user_pipeline true tid u sr₂ fr₂ ts₂
        (user_pipeline true tid u sr fr tStr store).2.1).1 := by
  have hpipe : ∀ res, res = user_pipeline true tid u sr fr tStr store →
      res = pipelineBody true u tid sr fr tStr
        (store ++ [((tid, u), JobState.registered)]) [PEvent.dbInsert] := by
    intro res hres
    rw [hres]
    unfold user_pipeline
    rw [if_pos rfl, store_after_insert store tid u h]
  rw [hpipe _ rfl]
  rcases hfail with hse | ⟨n, hsn, hfe⟩
  · subst hse
    refine ⟨rfl, ?_, ?_, ?_, ?_⟩
    · exact storeLookup_delete _ tid u
    · simp [pipelineBody]
    · intro _
      simp [pipelineBody]
    · intro sr₂ fr₂ ts₂
      exact scrapeCall_mem_pipeline_of_none tid u sr₂ fr₂ ts₂ _
        (storeLookup_delete _ tid u)
  · subst hsn
    subst hfe
    refine ⟨rfl, ?_, ?_, ?_, ?_⟩
    · exact storeLookup_delete _ tid u
    · simp [pipelineBody]
    · intro hcon
      simp at hcon
    · intro sr₂ fr₂ ts₂
      exact scrapeCall_mem_pipeline_of_none tid u sr₂ fr₂ ts₂ _
        (storeLookup_delete _ tid u)

theorem claim_C1_witness :
    storeLookup [] ("T1", "alice") = none ∧
    (user_pipeline true "T1" "alice" (Except.error "boom") (Except.ok ())
      "1.00" []).2.2 = Except.error "boom" ∧
    storeLookup (user_pipeline true "T1" "alice" (Except.error "boom")
      (Except.ok ()) "1.00" []).2.1 ("T1", "alice") = none :=
  have h := claim_C1_failure_rollback "T1" "alice" (Except.error "boom")
    (Except.ok ()) "1.00" [] "boom" (by decide) (Or.inl rfl)
  ⟨by decide, h.1, h.2.1⟩

/-- C2: when a non-terminal job record already exists for the pair, a
further start reports the existing job's state via the progress callback
and returns, leaving the store unchanged and invoking neither collection
nor training; consequently two starts in immediate succession (the second
seeing the store right after the first's registration) cause exactly one
collection-collaborator invocation. -/
theorem claim_C2_duplicate_short_circuit (tid u : String) (st : JobState)
    (store : JobStore) (sr : Except String Nat) (fr : Except String Unit)
    (tStr : String) (h : storeLookup store (tid, u) = some st)
    (hterm : st.isTerminal = false) :
    user_pipeline true tid u sr fr tStr store =
      ([PEvent.dbInsert, PEvent.respond ("Team " ++ tid ++ " already has " ++ u ++
        " registered (state=" ++ st.str ++ ").")], store, Except.ok ()) ∧
    PEvent.scrapeCall ∉ (user_pipeline true tid u sr fr tStr store).1 ∧
    PEvent.finetuneCall ∉ (user_pipeline true tid u sr fr tStr store).1 ∧
    ∀ store0 : JobStore, storeLookup store0 (tid, u) = none →
      (user_pipeline true tid u sr fr tStr store0).1.count PEvent.scrapeCall = 1 ∧
      ∀ (sr₂ : Except String Nat) (fr₂ : Except String Unit) (ts₂ : String),
        (user_pipeline true tid u sr₂ fr₂ ts₂
          (insert_user store0 tid u).2).1.count PEvent.scrapeCall = 0 := by
  have hshort : user_pipeline true tid u sr fr tStr store =
      ([PEvent.dbInsert, PEvent.respond ("Team " ++ tid ++ " already has " ++ u ++
        " registered (state=" ++ st.str ++ ").")], store, Except.ok ()) := by
    unfold user_pipeline
    rw [if_pos rfl, insert_user_existing store tid u st h hterm]
  refine ⟨hshort, ?_, ?_, ?_⟩
  · rw [hshort]; simp
  · rw [hshort]; simp
  · intro store0 h0
    constructor
    · unfold user_pipeline
      rw [if_pos rfl, store_after_insert store0 tid u h0]
      rw [scrapeCall_count_body]
      simp
    · intro sr₂ fr₂ ts₂
      have hreg : storeLookup (insert_user store0 tid u).2 (tid, u) =
          some JobState.registered := by
        rw [store_after_insert store0 tid u h0]
        exact storeLookup_append_new store0 tid u JobState.registered h0
      have hshort₂ : user_pipeline true tid u sr₂ fr₂ ts₂ (insert_user store0 tid u).2 =
          ([PEvent.dbInsert, PEvent.respond ("Team " ++ tid ++ " already has " ++ u ++
            " registered (state=" ++ JobState.registered.str ++ ").")],
            (insert_user store0 tid u).2, Except.ok ()) := by
        unfold user_pipeline
        rw [if_pos rfl, insert_user_existing _ tid u JobState.registered hreg rfl]
      rw [hshort₂]
      simp [List.count_cons]

theorem claim_C2_witness :
    storeLookup [(("T1", "bob"), JobState.collecting)] ("T1", "bob") =
      some JobState.collecting ∧
    PEvent.scrapeCall ∉
      (user_pipeline true "T1" "bob" (Except.ok 5) (Except.ok ()) "1.00"
        [(("T1", "bob"), JobState.collecting)]).1 ∧
    (user_pipeline true "T1" "bob" (Except.ok 5) (Except.ok ()) "1.00" []).1.count
      PEvent.scrapeCall = 1 ∧
    (user_pipeline true "T1" "bob" (Except.ok 7) (Except.ok ()) "2.00"
      (insert_user [] "T1" "bob").2).1.count PEvent.scrapeCall = 0 :=
  have h := claim_C2_duplicate_short_circuit "T1" "bob" JobState.collecting
    [(("T1", "bob"), JobState.collecting)] (Except.ok 5) (Except.ok ()) "1.00"
    (by decide) (by decide)
  ⟨by decide, h.2.1, (h.2.2.2 [] (by decide)).1,
    (h.2.2.2 [] (by decide)).2 (Except.ok 7) (Except.ok ()) "2.00"⟩

/-- C4: for a job whose collection call returns sample count N and whose
training call then completes, the progress callback receives exactly the
began-collecting message, the finished-collecting message containing N
and announcing training, and the finished-training message containing the
elapsed duration, in that order; the final recorded state for the pair is
`success` and the successful state update is the very last operation of
the run (no further mutation after success). -/
theorem claim_C4_success_sequence (tid u : String) (n : Nat) (tStr : String)
    (store : JobStore) (h : storeLookup store (tid, u) = none) :
    respondsOf (user_pipeline true tid u (Except.ok n) (Except.ok ()) tStr store).1 =
      ["Began scraping " ++ u ++ ".",
       "Finished scraping " ++ u ++ " (found " ++ toString n ++
         " samples), starting training.",
       "Finished training " ++ u ++ " after " ++ tStr ++ " seconds."] ∧
    storeLookup (user_pipeline true tid u (Except.ok n) (Except.ok ()) tStr store).2.1
      (tid, u) = some JobState.success ∧
    (user_pipeline true tid u (Except.ok n) (Except.ok ()) tStr store).2.2 =
      Except.ok () ∧
    (user_pipeline true tid u (Except.ok n) (Except.ok ()) tStr store).1.getLast? =
      some (PEvent.dbUpdate JobState.success) := by
  have hpipe : user_pipeline true tid u (Except.ok n) (Except.ok ()) tStr store =
      pipelineBody true u tid (Except.ok n) (Except.ok ()) tStr
        (store ++ [((tid, u), JobState.registered)]) [PEvent.dbInsert] := by
    unfold user_pipeline
    rw [if_pos rfl, store_after_insert store tid u h]
  rw [hpipe]
  refine ⟨?_, ?_, ?_, ?_⟩
  · simp [pipelineBody, respondsOf]
  · show storeLookup (update_state (update_state
      (store ++ [((tid, u), JobState.registered)]) tid u JobState.training)
        tid u JobState.success) (tid, u) = some JobState.success
    rw [storeLookup_update_append store tid u JobState.registered JobState.training h,
      storeLookup_update_append store tid u JobState.training JobState.success h]
    exact storeLookup_append_new store tid u JobState.success h
  · rfl
  · simp [pipelineBody]

theorem claim_C4_witness :
    storeLookup [] ("T1", "bob") = none ∧
    respondsOf (user_pipeline true "T1" "bob" (Except.ok 42) (Except.ok ())
        "12.34" []).1 =
      ["Began scraping " ++ "bob" ++ ".",
       "Finished scraping " ++ "bob" ++ " (found " ++ toString 42 ++
         " samples), starting training.",
       "Finished training " ++ "bob" ++ " after " ++ "12.34" ++ " seconds."] ∧
    storeLookup (user_pipeline true "T1" "bob" (Except.ok 42) (Except.ok ())
      "12.34" []).2.1 ("T1", "bob") = some JobState.success :=
  have h := claim_C4_success_sequence "T1" "bob" 42 "12.34" [] (by decide)
  ⟨by decide, h.1, h.2.1⟩

/-- C9: with the multi-workspace flag disabled, `user_pipeline` performs
no job-store operation at all — no insert-if-absent registration, no
state update, no deletion — and leaves the store unchanged in every
branch; in particular no start is short-circuited: collection is invoked
on every run, including a second start for the same pair. -/
theorem claim_C9_single_workspace_frame (tid u : String) (sr : Except String Nat)
    (fr : Except String Unit) (tStr : String) (store : JobStore) :
    (user_pipeline false tid u sr fr tStr store).2.1 = store ∧
    PEvent.dbInsert ∉ (user_pipeline false tid u sr fr tStr store).1 ∧
    (∀ st : JobState, PEvent.dbUpdate st ∉ (user_pipeline false tid u sr fr tStr store).1) ∧
    PEvent.dbDelete ∉ (user_pipeline false tid u sr fr tStr store).1 ∧
    PEvent.scrapeCall ∈ (user_pipeline false tid u sr fr tStr store).1 ∧
    ∀ (sr₂ : Except String Nat) (fr₂ : Except String Unit) (ts₂ : String),
      PEvent.scrapeCall ∈ (user_pipeline false tid u sr₂ fr₂ ts₂
        (user_pipeline false tid u sr fr tStr store).2.1).1 := by
  refine ⟨?_, ?_, ?_, ?_, ?_, ?_⟩
  · cases sr <;> cases fr <;> simp [user_pipeline, pipelineBody]
  · cases sr <;> cases fr <;> simp [user_pipeline, pipelineBody]
  · intro st
    cases sr <;> cases fr <;> simp [user_pipeline, pipelineBody]
  · cases sr <;> cases fr <;> simp [user_pipeline, pipelineBody]
  · exact scrapeCall_mem_body false u tid sr fr tStr store []
  · intro sr₂ fr₂ ts₂
    exact scrapeCall_mem_body false u tid sr₂ fr₂ ts₂ _ []

/-- C10: when the per-team trained-user lookup yields no trained user,
the mention handler posts exactly one message instructing users to run
the train command and returns: it never calls the inference service,
never runs the response splitter and posts no generated fragment. -/
theorem claim_C10_no_trained_user (users : UsersTable) (gen : String → String)
    (input : String) :
    mentionTail users none gen input =
      [MEvent.sayMsg "No users trained yet. Run /doppel <user> first."] ∧
    (∀ p, MEvent.inferCall p ∉ mentionTail users none gen input) ∧
    MEvent.splitRun ∉ mentionTail users none gen input ∧
    (∀ s, MEvent.postMessage s ∉ mentionTail users none gen input) := by
  refine ⟨rfl, ?_, ?_, ?_⟩ <;> simp [mentionTail]

end DoppelBot
